import Mathlib

/-!
Shallow embedding of the line-of-code accounting cache of `src/main.py`
(functions `cache_builder`, `flush_cache`, `recursive_loc`,
`loc_counter_one_repo`, `force_close_file`), together with theorems about
its reconciliation, aggregation, pagination and failure-recovery behaviour.

Modelling conventions:
* A cache-file body line `<hash> <total_commit_count> <my_commit_count>
  <lines_added> <lines_deleted>` is represented as a parsed `Record`;
  the opaque comment/header block is a `List String`.  The model assumes a
  well-formed store: the file has at least `comment_size` lines, so the
  header/body split performed at `main.py:111-112` (and re-used by
  `flush_cache` at `main.py:138-141`) is the pair `(cache_comment, body)`.
* `hashlib.sha256(name).hexdigest()` is an external pure function of the
  repository name; it is a parameter `hash : String → String` of every
  definition.
* The remote GraphQL oracle for one repository's commit history is the
  list of responses it returns to successive fetches (`RepoResponse`);
  Python integers are `Int`.
* `OWNER_ID` (`main.py:17`, set in `main`) is `ownerId : Option String`,
  matching the JSON shape `{'id': ...}` / `None` of `author.user`.
-/

namespace GithubStats

/-- One commit node of a history page (`main.py:257-269`):
`author.user` (None or an id) plus `additions`/`deletions`. -/
structure CommitNode where
  authorUser : Option String
  additions : Int
  deletions : Int
deriving Repr, DecidableEq

/-- One page of paginated commit history (`history(first: 100, ...)`):
its `totalCount`, its `edges`, and `pageInfo.hasNextPage`. -/
structure HistoryPage where
  totalCount : Int
  edges : List CommitNode
  hasNextPage : Bool
deriving Repr, DecidableEq

/-- One response of the remote source to a `recursive_loc` fetch
(`main.py:282-290`): HTTP 200 with a history page, HTTP 200 with
`defaultBranchRef = None` (empty repository), or a non-200 status. -/
inductive RepoResponse where
  | ok (page : HistoryPage)
  | emptyRepo
  | err (status : Nat)
deriving Repr, DecidableEq

/-- One repository edge of the `loc_query` listing (`main.py:309-350`):
`nameWithOwner`, the listing's `defaultBranchRef.target.history.totalCount`
(`none` when the repository has no default branch), and the scripted
responses the remote source will give to this repository's recomputation. -/
structure RepoEdge where
  nameWithOwner : String
  defaultBranch : Option Int
  pages : List RepoResponse
deriving Repr, DecidableEq

/-- A parsed cache-file body line
`<hash> <total_commit_count> <my_commit_count> <lines_added> <lines_deleted>`. -/
structure Record where
  repo_hash : String
  commit_count : Int
  my_commits : Int
  lines_added : Int
  lines_deleted : Int
deriving Repr, DecidableEq

/-- Outcome of `recursive_loc` (`main.py:244-290`): the accumulated
`(addition_total, deletion_total, my_commits)` tuple, the bare Python int
`0` returned when `defaultBranchRef` is `None` (`main.py:286`), a raised
exception after a non-200 status (`main.py:288-290`), or a stuck state when
the response script is exhausted (unreachable for well-formed histories). -/
inductive LocOutcome where
  | tuple (addition_total deletion_total my_commits : Int)
  | intZero
  | raised (status : Nat)
  | stuck
deriving Repr, DecidableEq

/-- The author-attribution for-loop of `loc_counter_one_repo`
(`main.py:298-302`): a commit contributes to the accumulators exactly when
`node['node']['author']['user'] == OWNER_ID`. -/
def loc_counter_fold (ownerId : Option String) :
    List CommitNode → Int → Int → Int → Int × Int × Int
  | [], addition_total, deletion_total, my_commits =>
      (addition_total, deletion_total, my_commits)
  | n :: rest, addition_total, deletion_total, my_commits =>
      if n.authorUser = ownerId then
        loc_counter_fold ownerId rest (addition_total + n.additions)
          (deletion_total + n.deletions) (my_commits + 1)
      else
        loc_counter_fold ownerId rest addition_total deletion_total my_commits

/-- `recursive_loc` fused with its mutual helper `loc_counter_one_repo`
(`main.py:244-306`), driven by the scripted responses of the remote source.
Each call makes exactly one fetch; the returned `Nat` counts fetches.
After folding a 200-page into the accumulators, pagination terminates when
`history['edges'] == [] or not history['pageInfo']['hasNextPage']`
(`main.py:304`), and otherwise recurses on the next response. -/
def recursive_loc (ownerId : Option String) :
    List RepoResponse → Int → Int → Int → LocOutcome × Nat
  | [], _, _, _ => (LocOutcome.stuck, 0)
  | RepoResponse.err s :: _, _, _, _ => (LocOutcome.raised s, 1)
  | RepoResponse.emptyRepo :: _, _, _, _ => (LocOutcome.intZero, 1)
  | RepoResponse.ok page :: rest, addition_total, deletion_total, my_commits =>
      let acc :=
        loc_counter_fold ownerId page.edges addition_total deletion_total my_commits
      if page.edges = [] ∨ page.hasNextPage = false then
        (LocOutcome.tuple acc.1 acc.2.1 acc.2.2, 1)
      else
        let r := recursive_loc ownerId rest acc.1 acc.2.1 acc.2.2
        (r.1, r.2 + 1)

/-- `flush_cache` (`main.py:133-145`): the rebuilt body is one zeroed
record `<hash(nameWithOwner)> 0 0 0 0` per edge, in listing order (the
preserved comment block is handled by the caller's state). -/
def flush_cache (hash : String → String) (edges : List RepoEdge) : List Record :=
  edges.map fun e => Record.mk (hash e.nameWithOwner) 0 0 0 0

/-- `force_close_file` (`main.py:232-241`): writes the comment block and
the current body to the store before the exception propagates; the store
contents it produces are exactly `(cache_comment, data)`. -/
def force_close_file (cache_comment : List String) (data : List Record) :
    List String × List Record :=
  (cache_comment, data)

/-- The guard at `main.py:105-109`: when the body record count differs from
the number of edges, or `force_cache` is set, the body is rebuilt by
`flush_cache` and `cached` becomes `false`; otherwise body and flag are kept. -/
def pre_body (hash : String → String) (edges : List RepoEdge)
    (body : List Record) (force_cache : Bool) : List Record × Bool :=
  if body.length ≠ edges.length ∨ force_cache = true then
    (flush_cache hash edges, false)
  else
    (body, true)

/-- Outcome of one iteration of the reconciliation loop body
(`main.py:113-123`) on one `(edge, record)` pair. -/
inductive StepOutcome where
  | unchanged
  | updated (r : Record)
  | fatalErr (status : Nat)
  | scriptExhausted
deriving Repr, DecidableEq

/-- One iteration of the loop at `main.py:113-123`, paired with the number
of `recursive_loc` fetches it performs.  When the stored hash matches the
live repository's hash and the cached commit count differs from the live
`totalCount`, `recursive_loc` is invoked and the record is rewritten as
`repo_hash totalCount loc[2] loc[0] loc[1]` (`main.py:121`); a `TypeError`
(no default branch at `main.py:117`, or subscripting the bare `0` returned
for an empty repository at `main.py:121`) zeroes the record
(`main.py:122-123`); otherwise the record is left untouched. -/
def cache_step (hash : String → String) (ownerId : Option String)
    (e : RepoEdge) (r : Record) : StepOutcome × Nat :=
  if r.repo_hash = hash e.nameWithOwner then
    match e.defaultBranch with
    | none => (StepOutcome.updated (Record.mk r.repo_hash 0 0 0 0), 0)
    | some total =>
        if r.commit_count ≠ total then
          match recursive_loc ownerId e.pages 0 0 0 with
          | (LocOutcome.tuple a d c, n) =>
              (StepOutcome.updated (Record.mk r.repo_hash total c a d), n)
          | (LocOutcome.intZero, n) =>
              (StepOutcome.updated (Record.mk r.repo_hash 0 0 0 0), n)
          | (LocOutcome.raised s, n) => (StepOutcome.fatalErr s, n)
          | (LocOutcome.stuck, n) => (StepOutcome.scriptExhausted, n)
        else (StepOutcome.unchanged, 0)
  else (StepOutcome.unchanged, 0)

/-- The record left at an index by one loop iteration: the rewritten record
on an update, the original record otherwise (including at the iteration
where a fatal error interrupts the loop before the assignment at
`main.py:121` happens). -/
def step_record (hash : String → String) (ownerId : Option String)
    (e : RepoEdge) (r : Record) : Record :=
  match (cache_step hash ownerId e r).1 with
  | StepOutcome.updated r2 => r2
  | _ => r

/-- Result of running the reconciliation loop over all `(edge, record)`
pairs: the final body and total fetch count, or the body as it stood when a
fatal error (or script exhaustion) interrupted the loop. -/
inductive LoopResult where
  | done (body : List Record) (fetches : Nat)
  | fatal (body : List Record) (status : Nat) (fetches : Nat)
  | stuck (body : List Record) (fetches : Nat)
deriving Repr, DecidableEq

/-- The loop at `main.py:113-123`, traversing the zipped `(edge, record)`
pairs left to right.  Because `data` is mutated in place, the body visible
to `force_close_file` at a failure has all earlier iterations' effects
applied and the current and later records unchanged. -/
def cache_builder_loop (hash : String → String) (ownerId : Option String) :
    List (RepoEdge × Record) → LoopResult
  | [] => LoopResult.done [] 0
  | (e, r) :: rest =>
      match cache_step hash ownerId e r with
      | (StepOutcome.unchanged, _) =>
          match cache_builder_loop hash ownerId rest with
          | LoopResult.done body n => LoopResult.done (r :: body) n
          | LoopResult.fatal body s n => LoopResult.fatal (r :: body) s n
          | LoopResult.stuck body n => LoopResult.stuck (r :: body) n
      | (StepOutcome.updated r2, m) =>
          match cache_builder_loop hash ownerId rest with
          | LoopResult.done body n => LoopResult.done (r2 :: body) (m + n)
          | LoopResult.fatal body s n => LoopResult.fatal (r2 :: body) s (m + n)
          | LoopResult.stuck body n => LoopResult.stuck (r2 :: body) (m + n)
      | (StepOutcome.fatalErr s, m) =>
          LoopResult.fatal (r :: rest.map Prod.snd) s m
      | (StepOutcome.scriptExhausted, m) =>
          LoopResult.stuck (r :: rest.map Prod.snd) m

/-- The aggregation loop at `main.py:127-130`: `loc_add += int(loc[3])`,
`loc_del += int(loc[4])` over every body record. -/
def aggregate : List Record → Int → Int → Int × Int
  | [], loc_add, loc_del => (loc_add, loc_del)
  | r :: rest, loc_add, loc_del =>
      aggregate rest (loc_add + r.lines_added) (loc_del + r.lines_deleted)

/-- Result of one full accounting pass: on success the store written at
`main.py:124-126` plus the returned `[loc_add, loc_del, loc_add - loc_del,
cached]` (`main.py:131`) and the fetch count; on a fatal error the store
written by `force_close_file` plus the propagated status. -/
inductive PassResult where
  | ok (header : List String) (body : List Record)
      (loc_add loc_del loc_net : Int) (cached : Bool) (fetches : Nat)
  | fatal (header : List String) (body : List Record)
      (status : Nat) (fetches : Nat)
  | stuck (header : List String) (body : List Record) (fetches : Nat)
deriving Repr, DecidableEq

/-- `cache_builder` (`main.py:88-131`) on a well-formed store
`(cache_comment, body)`: apply the rebuild guard, run the reconciliation
loop, then either write header+body and return the aggregate 4-tuple, or
(on a remote failure mid-recomputation) emergency-flush via
`force_close_file` and propagate the error. -/
def cache_builder (hash : String → String) (ownerId : Option String)
    (edges : List RepoEdge) (cache_comment : List String)
    (body : List Record) (force_cache : Bool) (loc_add loc_del : Int) :
    PassResult :=
  match cache_builder_loop hash ownerId
      (edges.zip (pre_body hash edges body force_cache).1) with
  | LoopResult.done b n =>
      PassResult.ok cache_comment b (aggregate b loc_add loc_del).1
        (aggregate b loc_add loc_del).2
        ((aggregate b loc_add loc_del).1 - (aggregate b loc_add loc_del).2)
        (pre_body hash edges body force_cache).2 n
  | LoopResult.fatal b s n =>
      PassResult.fatal (force_close_file cache_comment b).1
        (force_close_file cache_comment b).2 s n
  | LoopResult.stuck b n => PassResult.stuck cache_comment b n

/-- The commits of a history page attributed to the tracked account. -/
def author_filter (ownerId : Option String) (edges : List CommitNode) :
    List CommitNode :=
  edges.filter fun n => decide (n.authorUser = ownerId)

/-- Total additions of the tracked account's commits on a page. -/
def author_additions (ownerId : Option String) (edges : List CommitNode) : Int :=
  ((author_filter ownerId edges).map fun n => n.additions).sum

/-- Total deletions of the tracked account's commits on a page. -/
def author_deletions (ownerId : Option String) (edges : List CommitNode) : Int :=
  ((author_filter ownerId edges).map fun n => n.deletions).sum

/-- Number of the tracked account's commits on a page. -/
def author_commits (ownerId : Option String) (edges : List CommitNode) : Int :=
  ((author_filter ownerId edges).length : Int)

/-- Sum of the `lines_added` field over a body. -/
def sum_added (body : List Record) : Int :=
  (body.map fun r => r.lines_added).sum

/-- Sum of the `lines_deleted` field over a body. -/
def sum_deleted (body : List Record) : Int :=
  (body.map fun r => r.lines_deleted).sum

/-- The k-page history scenario of the spec: every page carries exactly 100
edges and `hasNextPage` is `false` exactly on the last page. -/
def kPagesOk : List HistoryPage → Bool
  | [] => false
  | [p] => !p.hasNextPage && p.edges.length == 100
  | p :: q :: rest => p.hasNextPage && p.edges.length == 100 && kPagesOk (q :: rest)

/-- Sum over a page list of the tracked account's additions. -/
def pages_additions (ownerId : Option String) (pages : List HistoryPage) : Int :=
  (pages.map fun p => author_additions ownerId p.edges).sum

/-- Sum over a page list of the tracked account's deletions. -/
def pages_deletions (ownerId : Option String) (pages : List HistoryPage) : Int :=
  (pages.map fun p => author_deletions ownerId p.edges).sum

/-- Sum over a page list of the tracked account's commit counts. -/
def pages_commits (ownerId : Option String) (pages : List HistoryPage) : Int :=
  (pages.map fun p => author_commits ownerId p.edges).sum

/-- Concrete hash function used by the witnesses (the identity stands in
for the external sha256 hexdigest). -/
def wHash : String → String := fun s => s

/-- Concrete tracked-account identity used by the witnesses. -/
def wOwner : Option String := some "me"

/-- Witness repository whose recomputation hits a rate-limit error. -/
def wEdge1 : RepoEdge := RepoEdge.mk "a/r" (some 5) [RepoResponse.err 403]

/-- Witness stale record for `wEdge1`. -/
def wRec1 : Record := Record.mk "a/r" 0 0 1 2

/-- Witness repository for the rebuild scenario. -/
def wEdge2 : RepoEdge := RepoEdge.mk "b/r" (some 0) []

/-- The zeroed record the rebuild writes for `wEdge2`. -/
def wRec2 : Record := Record.mk "b/r" 0 0 0 0

/-- Witness repository for the cache-hit scenario. -/
def wEdge3 : RepoEdge := RepoEdge.mk "c/r" (some 7) []

/-- Witness cached record for `wEdge3`, commit count in sync. -/
def wRec3 : Record := Record.mk "c/r" 7 3 10 4

/-- Witness repository for the aggregation scenario. -/
def wEdge6 : RepoEdge := RepoEdge.mk "d/r" (some 5) []

/-- Witness record with a foreign hash, left untouched and aggregated. -/
def wRec6 : Record := Record.mk "x" 1 2 3 4

/-- Witness empty repository (no default branch). -/
def wEdge7 : RepoEdge := RepoEdge.mk "e/r" none []

/-- Witness cached record for `wEdge7`. -/
def wRec7 : Record := Record.mk "e/r" 5 1 2 3

/-- Witness repository whose one-page recomputation succeeds. -/
def wEdge8 : RepoEdge :=
  RepoEdge.mk "f/r" (some 5)
    [RepoResponse.ok (HistoryPage.mk 5 [CommitNode.mk (some "me") 10 4] false)]

/-- Witness stale record for `wEdge8`. -/
def wRec8 : Record := Record.mk "f/r" 0 0 0 0

/-- The record `wEdge8`'s recomputation writes. -/
def wRec8b : Record := Record.mk "f/r" 5 1 10 4

/-- Witness repository for the hash-mismatch scenario. -/
def wEdge10 : RepoEdge := RepoEdge.mk "g/r" (some 5) []

/-- Witness record whose stored hash differs from `wEdge10`'s. -/
def wRec10 : Record := Record.mk "zzz" 1 1 7 2

theorem loc_counter_fold_eq (ownerId : Option String) (edges : List CommitNode) :
    ∀ a d c : Int, loc_counter_fold ownerId edges a d c =
      (a + author_additions ownerId edges, d + author_deletions ownerId edges,
       c + author_commits ownerId edges) := by
  induction edges with
  | nil =>
      intro a d c
      simp [loc_counter_fold, author_additions, author_deletions, author_commits,
        author_filter]
  | cons n rest ih =>
      intro a d c
      by_cases h : n.authorUser = ownerId
      · have hf : author_filter ownerId (n :: rest) =
            n :: author_filter ownerId rest := by
          simp [author_filter, h]
        rw [loc_counter_fold, if_pos h, ih]
        simp only [author_additions, author_deletions, author_commits, hf,
          List.map_cons, List.sum_cons, List.length_cons, Prod.mk.injEq]
        refine ⟨by ring, by ring, by push_cast; ring⟩
      · have hf : author_filter ownerId (n :: rest) =
            author_filter ownerId rest := by
          simp [author_filter, h]
        rw [loc_counter_fold, if_neg h, ih]
        simp only [author_additions, author_deletions, author_commits, hf]

theorem aggregate_eq (body : List Record) :
    ∀ loc_add loc_del : Int, aggregate body loc_add loc_del =
      (loc_add + sum_added body, loc_del + sum_deleted body) := by
  induction body with
  | nil => intro a d; simp [aggregate, sum_added, sum_deleted]
  | cons r rest ih =>
      intro a d
      simp only [aggregate, ih, sum_added, sum_deleted, List.map_cons,
        List.sum_cons, Prod.mk.injEq]
      exact ⟨by ring, by ring⟩

theorem pre_body_length (hash : String → String) (edges : List RepoEdge)
    (body : List Record) (force_cache : Bool) :
    (pre_body hash edges body force_cache).1.length = edges.length := by
  unfold pre_body
  split
  · simp [flush_cache]
  · next h =>
      push_neg at h
      exact h.1

theorem pre_body_keep (hash : String → String) (edges : List RepoEdge)
    (body : List Record) (h1 : body.length = edges.length) :
    pre_body hash edges body false = (body, true) := by
  simp [pre_body, h1]

theorem pre_body_rebuild (hash : String → String) (edges : List RepoEdge)
    (body : List Record) (force_cache : Bool)
    (h1 : body.length ≠ edges.length ∨ force_cache = true) :
    pre_body hash edges body force_cache = (flush_cache hash edges, false) := by
  unfold pre_body
  rw [if_pos h1]

theorem loop_cons_unchanged (hash : String → String) (ownerId : Option String)
    (e : RepoEdge) (r : Record) (rest : List (RepoEdge × Record)) (m : Nat)
    (hstep : cache_step hash ownerId e r = (StepOutcome.unchanged, m)) :
    cache_builder_loop hash ownerId ((e, r) :: rest) =
      match cache_builder_loop hash ownerId rest with
      | LoopResult.done body n => LoopResult.done (r :: body) n
      | LoopResult.fatal body s n => LoopResult.fatal (r :: body) s n
      | LoopResult.stuck body n => LoopResult.stuck (r :: body) n := by
  rw [cache_builder_loop, hstep]

theorem loop_cons_updated (hash : String → String) (ownerId : Option String)
    (e : RepoEdge) (r r2 : Record) (rest : List (RepoEdge × Record)) (m : Nat)
    (hstep : cache_step hash ownerId e r = (StepOutcome.updated r2, m)) :
    cache_builder_loop hash ownerId ((e, r) :: rest) =
      match cache_builder_loop hash ownerId rest with
      | LoopResult.done body n => LoopResult.done (r2 :: body) (m + n)
      | LoopResult.fatal body s n => LoopResult.fatal (r2 :: body) s (m + n)
      | LoopResult.stuck body n => LoopResult.stuck (r2 :: body) (m + n) := by
  rw [cache_builder_loop, hstep]

theorem loop_cons_fatalErr (hash : String → String) (ownerId : Option String)
    (e : RepoEdge) (r : Record) (rest : List (RepoEdge × Record)) (s : Nat) (m : Nat)
    (hstep : cache_step hash ownerId e r = (StepOutcome.fatalErr s, m)) :
    cache_builder_loop hash ownerId ((e, r) :: rest) =
      LoopResult.fatal (r :: rest.map Prod.snd) s m := by
  rw [cache_builder_loop, hstep]

theorem loop_cons_exhausted (hash : String → String) (ownerId : Option String)
    (e : RepoEdge) (r : Record) (rest : List (RepoEdge × Record)) (m : Nat)
    (hstep : cache_step hash ownerId e r = (StepOutcome.scriptExhausted, m)) :
    cache_builder_loop hash ownerId ((e, r) :: rest) =
      LoopResult.stuck (r :: rest.map Prod.snd) m := by
  rw [cache_builder_loop, hstep]

theorem step_record_of_unchanged (hash : String → String) (ownerId : Option String)
    (e : RepoEdge) (r : Record) (m : Nat)
    (hstep : cache_step hash ownerId e r = (StepOutcome.unchanged, m)) :
    step_record hash ownerId e r = r := by
  simp [step_record, hstep]

theorem step_record_of_updated (hash : String → String) (ownerId : Option String)
    (e : RepoEdge) (r r2 : Record) (m : Nat)
    (hstep : cache_step hash ownerId e r = (StepOutcome.updated r2, m)) :
    step_record hash ownerId e r = r2 := by
  simp [step_record, hstep]

theorem cache_builder_loop_done_eq (hash : String → String)
    (ownerId : Option String) :
    ∀ (pairs : List (RepoEdge × Record)) (b : List Record) (n : Nat),
      cache_builder_loop hash ownerId pairs = LoopResult.done b n →
      b = pairs.map fun p => step_record hash ownerId p.1 p.2 := by
  intro pairs
  induction pairs with
  | nil =>
      intro b n h
      rw [cache_builder_loop] at h
      cases h
      rfl
  | cons p rest ih =>
      obtain ⟨e, r⟩ := p
      intro b n h
      rcases hstep : cache_step hash ownerId e r with ⟨out, m⟩
      cases out with
      | unchanged =>
          rw [loop_cons_unchanged hash ownerId e r rest m hstep] at h
          rcases hrec : cache_builder_loop hash ownerId rest with
              ⟨b2, n2⟩ | ⟨b2, s2, n2⟩ | ⟨b2, n2⟩ <;>
            simp only [hrec] at h <;> cases h
          rw [List.map_cons, step_record_of_unchanged hash ownerId e r m hstep,
            ih _ _ hrec]
      | updated r2 =>
          rw [loop_cons_updated hash ownerId e r r2 rest m hstep] at h
          rcases hrec : cache_builder_loop hash ownerId rest with
              ⟨b2, n2⟩ | ⟨b2, s2, n2⟩ | ⟨b2, n2⟩ <;>
            simp only [hrec] at h <;> cases h
          rw [List.map_cons, step_record_of_updated hash ownerId e r r2 m hstep,
            ih _ _ hrec]
      | fatalErr s2 =>
          rw [loop_cons_fatalErr hash ownerId e r rest s2 m hstep] at h
          cases h
      | scriptExhausted =>
          rw [loop_cons_exhausted hash ownerId e r rest m hstep] at h
          cases h

theorem cache_builder_loop_fatal_eq (hash : String → String)
    (ownerId : Option String) :
    ∀ (pairs : List (RepoEdge × Record)) (b : List Record) (s : Nat) (n : Nat),
      cache_builder_loop hash ownerId pairs = LoopResult.fatal b s n →
      ∃ m, m ≤ pairs.length ∧
        b = ((pairs.take m).map fun p => step_record hash ownerId p.1 p.2)
            ++ (pairs.drop m).map Prod.snd ∧
        ∃ e r, pairs[m]? = some (e, r) ∧
          (cache_step hash ownerId e r).1 = StepOutcome.fatalErr s := by
  intro pairs
  induction pairs with
  | nil =>
      intro b s n h
      rw [cache_builder_loop] at h
      cases h
  | cons p rest ih =>
      obtain ⟨e, r⟩ := p
      intro b s n h
      rcases hstep : cache_step hash ownerId e r with ⟨out, m⟩
      cases out with
      | unchanged =>
          rw [loop_cons_unchanged hash ownerId e r rest m hstep] at h
          rcases hrec : cache_builder_loop hash ownerId rest with
              ⟨b2, n2⟩ | ⟨b2, s2, n2⟩ | ⟨b2, n2⟩ <;>
            simp only [hrec] at h <;> cases h
          obtain ⟨m2, hm2, hb2, e2, r2, hget, hfat⟩ := ih _ _ _ hrec
          refine ⟨m2 + 1, by simpa using Nat.succ_le_succ hm2, ?_, e2, r2, ?_, hfat⟩
          · rw [List.take_succ_cons, List.drop_succ_cons, List.map_cons,
              step_record_of_unchanged hash ownerId e r m hstep, List.cons_append,
              hb2]
          · simpa using hget
      | updated r2 =>
          rw [loop_cons_updated hash ownerId e r r2 rest m hstep] at h
          rcases hrec : cache_builder_loop hash ownerId rest with
              ⟨b2, n2⟩ | ⟨b2, s2, n2⟩ | ⟨b2, n2⟩ <;>
            simp only [hrec] at h <;> cases h
          obtain ⟨m2, hm2, hb2, e3, r3, hget, hfat⟩ := ih _ _ _ hrec
          refine ⟨m2 + 1, by simpa using Nat.succ_le_succ hm2, ?_, e3, r3, ?_, hfat⟩
          · rw [List.take_succ_cons, List.drop_succ_cons, List.map_cons,
              step_record_of_updated hash ownerId e r r2 m hstep, List.cons_append,
              hb2]
          · simpa using hget
      | fatalErr s2 =>
          rw [loop_cons_fatalErr hash ownerId e r rest s2 m hstep] at h
          cases h
          refine ⟨0, Nat.zero_le _, by simp, e, r, by simp, by rw [hstep]⟩
      | scriptExhausted =>
          rw [loop_cons_exhausted hash ownerId e r rest m hstep] at h
          cases h

theorem recursive_loc_kpages (ownerId : Option String) :
    ∀ pages : List HistoryPage, kPagesOk pages = true →
      ∀ a d c : Int, recursive_loc ownerId (pages.map RepoResponse.ok) a d c =
        (LocOutcome.tuple (a + pages_additions ownerId pages)
          (d + pages_deletions ownerId pages) (c + pages_commits ownerId pages),
         pages.length)
  | [], h => by simp [kPagesOk] at h
  | [p], h => by
      intro a d c
      simp only [kPagesOk, Bool.and_eq_true, Bool.not_eq_true', beq_iff_eq] at h
      simp [recursive_loc, h.1, loc_counter_fold_eq, pages_additions,
        pages_deletions, pages_commits]
  | p :: q :: rest, h => by
      intro a d c
      simp only [kPagesOk, Bool.and_eq_true, beq_iff_eq] at h
      obtain ⟨⟨hnext, hlen⟩, hrest⟩ := h
      have hne : ¬(p.edges = [] ∨ p.hasNextPage = false) := by
        rw [hnext]
        simp only [Bool.true_eq_false, or_false]
        intro hnil
        rw [hnil] at hlen
        simp at hlen
      rw [List.map_cons, recursive_loc]
      simp only [if_neg hne, loc_counter_fold_eq]
      rw [recursive_loc_kpages ownerId (q :: rest) hrest]
      simp only [pages_additions, pages_deletions, pages_commits, List.map_cons,
        List.sum_cons, List.length_cons, Prod.mk.injEq, LocOutcome.tuple.injEq]
      refine ⟨⟨by ring, by ring, by ring⟩, trivial⟩

/-- C5: for a commit history of k pages of 100 edges each, with the
next-page flag false only on the last page, the paginated walk of
`recursive_loc` makes exactly k fetch calls and returns the sum over all k
pages of the tracked author's additions, deletions and commit count (the
walk continues exactly while the page has a next-page flag and at least
one edge, which is the recursion guard of `recursive_loc`). -/
theorem pagination_k_pages_exact_fetches (ownerId : Option String)
    (pages : List HistoryPage) (h : kPagesOk pages = true) :
    recursive_loc ownerId (pages.map RepoResponse.ok) 0 0 0 =
      (LocOutcome.tuple (pages_additions ownerId pages)
        (pages_deletions ownerId pages) (pages_commits ownerId pages),
       pages.length) := by
  have h2 := recursive_loc_kpages ownerId pages h 0 0 0
  simpa using h2

/-- Witness for C5 at a concrete two-page history of 100 edges per page. -/
theorem pagination_k_pages_exact_fetches_witness :
    (kPagesOk [HistoryPage.mk 200 (List.replicate 100 (CommitNode.mk (some "me") 1 2)) true,
       HistoryPage.mk 200 (List.replicate 100 (CommitNode.mk (some "you") 3 4)) false] = true) ∧
    recursive_loc (some "me")
      ([HistoryPage.mk 200 (List.replicate 100 (CommitNode.mk (some "me") 1 2)) true,
        HistoryPage.mk 200 (List.replicate 100 (CommitNode.mk (some "you") 3 4)) false].map
        RepoResponse.ok) 0 0 0 =
      (LocOutcome.tuple
        (pages_additions (some "me")
          [HistoryPage.mk 200 (List.replicate 100 (CommitNode.mk (some "me") 1 2)) true,
           HistoryPage.mk 200 (List.replicate 100 (CommitNode.mk (some "you") 3 4)) false])
        (pages_deletions (some "me")
          [HistoryPage.mk 200 (List.replicate 100 (CommitNode.mk (some "me") 1 2)) true,
           HistoryPage.mk 200 (List.replicate 100 (CommitNode.mk (some "you") 3 4)) false])
        (pages_commits (some "me")
          [HistoryPage.mk 200 (List.replicate 100 (CommitNode.mk (some "me") 1 2)) true,
           HistoryPage.mk 200 (List.replicate 100 (CommitNode.mk (some "you") 3 4)) false]),
       [HistoryPage.mk 200 (List.replicate 100 (CommitNode.mk (some "me") 1 2)) true,
        HistoryPage.mk 200 (List.replicate 100 (CommitNode.mk (some "you") 3 4)) false].length) :=
  ⟨by decide,
   pagination_k_pages_exact_fetches (some "me")
     [HistoryPage.mk 200 (List.replicate 100 (CommitNode.mk (some "me") 1 2)) true,
      HistoryPage.mk 200 (List.replicate 100 (CommitNode.mk (some "you") 3 4)) false]
     (by decide)⟩

/-- C1: if, during recomputation, the remote source answers with a
non-success status, the accountant writes the header plus all
`edges.length` records to the store — a prefix of `m` records carrying
their post-reconciliation values and the remaining records unchanged, so
no record is lost and the body is never shorter than the live repository
count — and then the fatal error propagates (the `PassResult.fatal`
outcome). -/
theorem emergency_flush_no_record_loss (hash : String → String)
    (ownerId : Option String) (edges : List RepoEdge)
    (cache_comment : List String) (body : List Record) (force_cache : Bool)
    (loc_add loc_del : Int) (hdr : List String) (b : List Record)
    (s fz : Nat)
    (h : cache_builder hash ownerId edges cache_comment body force_cache
        loc_add loc_del = PassResult.fatal hdr b s fz) :
    hdr = cache_comment ∧ b.length = edges.length ∧
    ∃ m, m ≤ edges.length ∧
      b = (((edges.zip (pre_body hash edges body force_cache).1).take m).map
            fun p => step_record hash ownerId p.1 p.2)
          ++ ((edges.zip (pre_body hash edges body force_cache).1).drop m).map
               Prod.snd := by
  rw [cache_builder] at h
  rcases hloop : cache_builder_loop hash ownerId
      (edges.zip (pre_body hash edges body force_cache).1) with
      ⟨b2, n2⟩ | ⟨b2, s2, n2⟩ | ⟨b2, n2⟩ <;>
    simp only [hloop, force_close_file] at h <;> cases h
  obtain ⟨m, hm, hb, e, r, hget, hfat⟩ :=
    cache_builder_loop_fatal_eq hash ownerId _ _ _ _ hloop
  have hlen : (edges.zip (pre_body hash edges body force_cache).1).length =
      edges.length := by
    rw [List.length_zip, pre_body_length, Nat.min_self]
  refine ⟨rfl, ?_, m, by omega, hb⟩
  rw [hb]
  simp only [List.length_append, List.length_map, List.length_take,
    List.length_drop, hlen]
  omega

/-- C2: when the body record count differs from the live repository count,
or the caller sets the force-rebuild flag, reconcile discards the body and
writes exactly one zeroed record `<hash(nameWithOwner)> 0 0 0 0` per live
repository, in the listing's order, preserving the header; the final body
length equals the live repository count exactly. -/
theorem rebuild_on_count_mismatch (hash : String → String)
    (ownerId : Option String) (edges : List RepoEdge)
    (cache_comment : List String) (body : List Record) (force_cache : Bool)
    (loc_add loc_del : Int) (hdr : List String) (b : List Record)
    (la ld net : Int) (cached : Bool) (f : Nat)
    (hcond : body.length ≠ edges.length ∨ force_cache = true)
    (h : cache_builder hash ownerId edges cache_comment body force_cache
        loc_add loc_del = PassResult.ok hdr b la ld net cached f) :
    (pre_body hash edges body force_cache).1 =
      edges.map (fun e => Record.mk (hash e.nameWithOwner) 0 0 0 0) ∧
    hdr = cache_comment ∧ b.length = edges.length := by
  have hpre : (pre_body hash edges body force_cache).1 =
      edges.map fun e => Record.mk (hash e.nameWithOwner) 0 0 0 0 := by
    rw [pre_body_rebuild hash edges body force_cache hcond]
    rfl
  rw [cache_builder] at h
  rcases hloop : cache_builder_loop hash ownerId
      (edges.zip (pre_body hash edges body force_cache).1) with
      ⟨b2, n2⟩ | ⟨b2, s2, n2⟩ | ⟨b2, n2⟩ <;>
    simp only [hloop, force_close_file] at h <;> cases h
  refine ⟨hpre, rfl, ?_⟩
  rw [cache_builder_loop_done_eq hash ownerId _ _ _ hloop]
  rw [List.length_map, List.length_zip, pre_body_length, Nat.min_self]

/-- C6: a successful accounting pass returns the 4-tuple
`(added, deleted, added - deleted, fully_cached)` where `added` and
`deleted` are the sums of the `lines_added` and `lines_deleted` fields over
all body records, and `fully_cached` is `false` whenever a rebuild occurred
during the pass. -/
theorem aggregate_returns_sums (hash : String → String)
    (ownerId : Option String) (edges : List RepoEdge)
    (cache_comment : List String) (body : List Record) (force_cache : Bool)
    (hdr : List String) (b : List Record) (la ld net : Int) (cached : Bool)
    (f : Nat)
    (h : cache_builder hash ownerId edges cache_comment body force_cache 0 0 =
      PassResult.ok hdr b la ld net cached f) :
    la = sum_added b ∧ ld = sum_deleted b ∧ net = la - ld ∧
    ((body.length ≠ edges.length ∨ force_cache = true) → cached = false) := by
  rw [cache_builder] at h
  rcases hloop : cache_builder_loop hash ownerId
      (edges.zip (pre_body hash edges body force_cache).1) with
      ⟨b2, n2⟩ | ⟨b2, s2, n2⟩ | ⟨b2, n2⟩ <;>
    simp only [hloop, force_close_file] at h <;> cases h
  rw [aggregate_eq]
  refine ⟨by simp, by simp, by simp, fun hcond => ?_⟩
  rw [pre_body_rebuild hash edges body force_cache hcond]

theorem cache_step_miss (hash : String → String) (ownerId : Option String)
    (e : RepoEdge) (r : Record)
    (hh : ¬ r.repo_hash = hash e.nameWithOwner) :
    cache_step hash ownerId e r = (StepOutcome.unchanged, 0) := by
  rw [cache_step, if_neg hh]

theorem cache_step_nobranch (hash : String → String) (ownerId : Option String)
    (e : RepoEdge) (r : Record)
    (hh : r.repo_hash = hash e.nameWithOwner) (hbr : e.defaultBranch = none) :
    cache_step hash ownerId e r =
      (StepOutcome.updated (Record.mk r.repo_hash 0 0 0 0), 0) := by
  rw [cache_step, if_pos hh]
  simp only [hbr]

theorem cache_step_hit (hash : String → String) (ownerId : Option String)
    (e : RepoEdge) (r : Record) (total : Int)
    (hh : r.repo_hash = hash e.nameWithOwner)
    (hbr : e.defaultBranch = some total) (hc : r.commit_count = total) :
    cache_step hash ownerId e r = (StepOutcome.unchanged, 0) := by
  rw [cache_step, if_pos hh]
  simp only [hbr]
  rw [if_neg (by simp [hc])]

theorem cache_step_recompute (hash : String → String) (ownerId : Option String)
    (e : RepoEdge) (r : Record) (total : Int)
    (hh : r.repo_hash = hash e.nameWithOwner)
    (hbr : e.defaultBranch = some total) (hc : r.commit_count ≠ total) :
    cache_step hash ownerId e r =
      (match recursive_loc ownerId e.pages 0 0 0 with
       | (LocOutcome.tuple a d c, n) =>
           (StepOutcome.updated (Record.mk r.repo_hash total c a d), n)
       | (LocOutcome.intZero, n) =>
           (StepOutcome.updated (Record.mk r.repo_hash 0 0 0 0), n)
       | (LocOutcome.raised s, n) => (StepOutcome.fatalErr s, n)
       | (LocOutcome.stuck, n) => (StepOutcome.scriptExhausted, n)) := by
  rw [cache_step, if_pos hh]
  simp only [hbr]
  rw [if_pos hc]

theorem cache_step_idem (hash : String → String) (ownerId : Option String)
    (e : RepoEdge) (r r2 : Record) (m : Nat)
    (hstep : cache_step hash ownerId e r = (StepOutcome.updated r2, m)) :
    (cache_step hash ownerId e r2).1 = StepOutcome.unchanged ∨
    (cache_step hash ownerId e r2).1 = StepOutcome.updated r2 := by
  by_cases hh : r.repo_hash = hash e.nameWithOwner
  · cases hbr : e.defaultBranch with
    | none =>
        rw [cache_step_nobranch hash ownerId e r hh hbr] at hstep
        cases hstep
        right
        rw [cache_step_nobranch hash ownerId e
          (Record.mk r.repo_hash 0 0 0 0) hh hbr]
    | some total =>
        by_cases hc : r.commit_count = total
        · rw [cache_step_hit hash ownerId e r total hh hbr hc] at hstep
          cases hstep
        · rw [cache_step_recompute hash ownerId e r total hh hbr hc] at hstep
          rcases hrl : recursive_loc ownerId e.pages 0 0 0 with ⟨out, n⟩
          cases out with
          | tuple a d c =>
              simp only [hrl] at hstep
              cases hstep
              left
              rw [cache_step_hit hash ownerId e
                (Record.mk r.repo_hash total c a d) total hh hbr rfl]
          | intZero =>
              simp only [hrl] at hstep
              cases hstep
              by_cases h0 : (0 : Int) = total
              · left
                rw [cache_step_hit hash ownerId e
                  (Record.mk r.repo_hash 0 0 0 0) total hh hbr h0]
              · right
                rw [cache_step_recompute hash ownerId e
                  (Record.mk r.repo_hash 0 0 0 0) total hh hbr h0]
                simp only [hrl]
          | raised s =>
              simp only [hrl] at hstep
              cases hstep
          | stuck =>
              simp only [hrl] at hstep
              cases hstep
  · rw [cache_step_miss hash ownerId e r hh] at hstep
    cases hstep

theorem cache_builder_loop_idem (hash : String → String)
    (ownerId : Option String) :
    ∀ (edges : List RepoEdge) (body b : List Record) (n : Nat),
      cache_builder_loop hash ownerId (edges.zip body) = LoopResult.done b n →
      ∃ n2, cache_builder_loop hash ownerId (edges.zip b) = LoopResult.done b n2 := by
  intro edges
  induction edges with
  | nil =>
      intro body b n h
      have hz : (([] : List RepoEdge).zip body) = [] := rfl
      rw [hz, cache_builder_loop] at h
      cases h
      exact ⟨0, rfl⟩
  | cons e es ih =>
      intro body b n h
      cases body with
      | nil =>
          rw [List.zip_nil_right, cache_builder_loop] at h
          cases h
          exact ⟨0, by rw [List.zip_nil_right, cache_builder_loop]⟩
      | cons r rs =>
          rw [List.zip_cons_cons] at h
          rcases hstep : cache_step hash ownerId e r with ⟨out, m⟩
          cases out with
          | unchanged =>
              rw [loop_cons_unchanged hash ownerId e r (es.zip rs) m hstep] at h
              rcases hrec : cache_builder_loop hash ownerId (es.zip rs) with
                  ⟨b2, n2⟩ | ⟨b2, s2, n2⟩ | ⟨b2, n2⟩ <;>
                simp only [hrec] at h <;> cases h
              obtain ⟨n3, hl3⟩ := ih rs _ _ hrec
              refine ⟨n3, ?_⟩
              rw [List.zip_cons_cons,
                loop_cons_unchanged hash ownerId e r _ m hstep, hl3]
          | updated r2 =>
              rw [loop_cons_updated hash ownerId e r r2 (es.zip rs) m hstep] at h
              rcases hrec : cache_builder_loop hash ownerId (es.zip rs) with
                  ⟨b2, n2⟩ | ⟨b2, s2, n2⟩ | ⟨b2, n2⟩ <;>
                simp only [hrec] at h <;> cases h
              obtain ⟨n3, hl3⟩ := ih rs _ _ hrec
              rcases hs2 : cache_step hash ownerId e r2 with ⟨out2, m2⟩
              rcases cache_step_idem hash ownerId e r r2 m hstep with h1 | h1 <;>
                rw [hs2] at h1 <;> simp only at h1 <;> rw [h1] at hs2
              · refine ⟨n3, ?_⟩
                rw [List.zip_cons_cons,
                  loop_cons_unchanged hash ownerId e r2 _ m2 hs2, hl3]
              · refine ⟨m2 + n3, ?_⟩
                rw [List.zip_cons_cons,
                  loop_cons_updated hash ownerId e r2 r2 _ m2 hs2, hl3]
          | fatalErr s2 =>
              rw [loop_cons_fatalErr hash ownerId e r (es.zip rs) s2 m hstep] at h
              cases h
          | scriptExhausted =>
              rw [loop_cons_exhausted hash ownerId e r (es.zip rs) m hstep] at h
              cases h

/-- C8: running reconcile twice in a row against the same live repository
data, with the force flag off and no intervening remote changes, leaves
the store (header and body) after the second run identical to the store
after the first run. -/
theorem reconcile_idempotent (hash : String → String)
    (ownerId : Option String) (edges : List RepoEdge)
    (cache_comment : List String) (body : List Record) (hdr : List String)
    (b : List Record) (la ld net : Int) (cached : Bool) (f : Nat)
    (h : cache_builder hash ownerId edges cache_comment body false 0 0 =
      PassResult.ok hdr b la ld net cached f) :
    ∃ la2 ld2 net2 cached2 f2,
      cache_builder hash ownerId edges hdr b false 0 0 =
        PassResult.ok hdr b la2 ld2 net2 cached2 f2 := by
  rw [cache_builder] at h
  rcases hloop : cache_builder_loop hash ownerId
      (edges.zip (pre_body hash edges body false).1) with
      ⟨b2, n2⟩ | ⟨b2, s2, n2⟩ | ⟨b2, n2⟩ <;>
    simp only [hloop, force_close_file] at h <;> cases h
  have hblen : b.length = edges.length := by
    rw [cache_builder_loop_done_eq hash ownerId _ _ _ hloop, List.length_map,
      List.length_zip, pre_body_length, Nat.min_self]
  obtain ⟨n3, hloop2⟩ :=
    cache_builder_loop_idem hash ownerId edges (pre_body hash edges body false).1
      b _ hloop
  refine ⟨(aggregate b 0 0).1, (aggregate b 0 0).2,
    (aggregate b 0 0).1 - (aggregate b 0 0).2, true, n3, ?_⟩
  rw [cache_builder, pre_body_keep hash edges b hblen]
  simp only [hloop2, pre_body_keep hash edges b hblen]

theorem sum_added_split (b : List Record) (i : Nat) (r : Record)
    (h : b[i]? = some r) :
    sum_added b =
      sum_added (b.take i) + r.lines_added + sum_added (b.drop (i + 1)) := by
  have hi : i < b.length := by
    by_contra hge
    rw [List.getElem?_eq_none (by omega)] at h
    cases h
  have hr : b[i] = r := by
    rw [List.getElem?_eq_getElem hi] at h
    cases h
    rfl
  conv_lhs => rw [← List.take_append_drop i b, List.drop_eq_getElem_cons hi, hr]
  simp only [sum_added, List.map_append, List.sum_append, List.map_cons,
    List.sum_cons]
  ring

theorem sum_deleted_split (b : List Record) (i : Nat) (r : Record)
    (h : b[i]? = some r) :
    sum_deleted b =
      sum_deleted (b.take i) + r.lines_deleted + sum_deleted (b.drop (i + 1)) := by
  have hi : i < b.length := by
    by_contra hge
    rw [List.getElem?_eq_none (by omega)] at h
    cases h
  have hr : b[i] = r := by
    rw [List.getElem?_eq_getElem hi] at h
    cases h
    rfl
  conv_lhs => rw [← List.take_append_drop i b, List.drop_eq_getElem_cons hi, hr]
  simp only [sum_deleted, List.map_append, List.sum_append, List.map_cons,
    List.sum_cons]
  ring

/-- C3: a repository whose cached commit count equals the live total commit
count is a cache hit: the loop iteration performs zero `recursive_loc`
fetches and a successful pass leaves that record untouched in the store. -/
theorem cache_hit_no_recompute (hash : String → String)
    (ownerId : Option String) (edges : List RepoEdge)
    (cache_comment : List String) (body : List Record) (i : Nat)
    (e : RepoEdge) (r : Record)
    (hlen : body.length = edges.length)
    (he : edges[i]? = some e) (hr : body[i]? = some r)
    (hhash : r.repo_hash = hash e.nameWithOwner)
    (hcount : e.defaultBranch = some r.commit_count) :
    cache_step hash ownerId e r = (StepOutcome.unchanged, 0) ∧
    ∀ (hdr : List String) (b : List Record) (la ld net : Int) (cached : Bool)
      (f : Nat),
      cache_builder hash ownerId edges cache_comment body false 0 0 =
        PassResult.ok hdr b la ld net cached f →
      b[i]? = some r := by
  have hstep : cache_step hash ownerId e r = (StepOutcome.unchanged, 0) := by
    rw [cache_step, if_pos hhash, hcount]
    simp
  refine ⟨hstep, fun hdr b la ld net cached f h => ?_⟩
  rw [cache_builder, pre_body_keep hash edges body hlen] at h
  rcases hloop : cache_builder_loop hash ownerId (edges.zip body) with
      ⟨b2, n2⟩ | ⟨b2, s2, n2⟩ | ⟨b2, n2⟩ <;>
    simp only [hloop, force_close_file] at h <;> cases h
  rw [cache_builder_loop_done_eq hash ownerId _ _ _ hloop]
  have hpair : (edges.zip body)[i]? = some (e, r) :=
    List.getElem?_zip_eq_some.mpr ⟨he, hr⟩
  rw [List.getElem?_map, hpair]
  simp [step_record_of_unchanged hash ownerId e r 0 hstep]

/-- C7: a repository reporting no default branch (an empty repository) is
not an error: its record is rewritten to the all-zero form
`<identity_hash> 0 0 0 0` with no fetch performed, and the pass completes
normally with a successful store write. -/
theorem empty_repo_recorded_zero (hash : String → String)
    (ownerId : Option String) (e : RepoEdge) (r : Record)
    (cache_comment : List String)
    (hhash : r.repo_hash = hash e.nameWithOwner)
    (hempty : e.defaultBranch = none) :
    cache_step hash ownerId e r =
      (StepOutcome.updated (Record.mk (hash e.nameWithOwner) 0 0 0 0), 0) ∧
    cache_builder hash ownerId [e] cache_comment [r] false 0 0 =
      PassResult.ok cache_comment [Record.mk (hash e.nameWithOwner) 0 0 0 0]
        0 0 0 true 0 := by
  have hstep : cache_step hash ownerId e r =
      (StepOutcome.updated (Record.mk (hash e.nameWithOwner) 0 0 0 0), 0) := by
    rw [cache_step, if_pos hhash, hempty, hhash]
  constructor
  · exact hstep
  · have hkeep : pre_body hash [e] [r] false = ([r], true) :=
      pre_body_keep hash [e] [r] rfl
    rw [cache_builder, hkeep]
    have hzip : ([e].zip [r]) = [(e, r)] := rfl
    rw [hzip, loop_cons_updated hash ownerId e r
      (Record.mk (hash e.nameWithOwner) 0 0 0 0) [] 0 hstep]
    simp [cache_builder_loop, aggregate]

/-- C10: a body record whose stored identity hash differs from the live
repository's hash at the same position is left unchanged by a successful
pass — even though its commit count may differ from the live count — and
its `lines_added`/`lines_deleted` still contribute to the aggregate totals
the pass returns. -/
theorem hash_mismatch_record_kept (hash : String → String)
    (ownerId : Option String) (edges : List RepoEdge)
    (cache_comment : List String) (body : List Record) (i : Nat)
    (e : RepoEdge) (r : Record) (hdr : List String) (b : List Record)
    (la ld net : Int) (cached : Bool) (f : Nat)
    (hlen : body.length = edges.length)
    (he : edges[i]? = some e) (hr : body[i]? = some r)
    (hhash : r.repo_hash ≠ hash e.nameWithOwner)
    (h : cache_builder hash ownerId edges cache_comment body false 0 0 =
      PassResult.ok hdr b la ld net cached f) :
    b[i]? = some r ∧ la = sum_added b ∧ ld = sum_deleted b ∧
    la = sum_added (b.take i) + r.lines_added + sum_added (b.drop (i + 1)) ∧
    ld = sum_deleted (b.take i) + r.lines_deleted +
      sum_deleted (b.drop (i + 1)) := by
  have hstep : cache_step hash ownerId e r = (StepOutcome.unchanged, 0) := by
    rw [cache_step, if_neg hhash]
  rw [cache_builder, pre_body_keep hash edges body hlen] at h
  rcases hloop : cache_builder_loop hash ownerId (edges.zip body) with
      ⟨b2, n2⟩ | ⟨b2, s2, n2⟩ | ⟨b2, n2⟩ <;>
    simp only [hloop, force_close_file] at h <;> cases h
  have hbi : b[i]? = some r := by
    rw [cache_builder_loop_done_eq hash ownerId _ _ _ hloop]
    have hpair : (edges.zip body)[i]? = some (e, r) :=
      List.getElem?_zip_eq_some.mpr ⟨he, hr⟩
    rw [List.getElem?_map, hpair]
    simp [step_record_of_unchanged hash ownerId e r 0 hstep]
  have hagg := aggregate_eq b 0 0
  refine ⟨hbi, ?_, ?_, ?_, ?_⟩
  · rw [hagg]; simp
  · rw [hagg]; simp
  · rw [hagg]; simpa using sum_added_split b i r hbi
  · rw [hagg]; simpa using sum_deleted_split b i r hbi

/-- C4: during recomputation of one repository's history, a commit's
additions and deletions are added to the running totals (and
`my_commits` incremented) exactly for the commits whose author matches the
tracked account's identity; all other commits are traversed but contribute
nothing to the accumulators. -/
theorem commit_attribution_only_owner (ownerId : Option String)
    (edges : List CommitNode) (a d c : Int) :
    loc_counter_fold ownerId edges a d c =
      (a + author_additions ownerId edges, d + author_deletions ownerId edges,
       c + author_commits ownerId edges) :=
  loc_counter_fold_eq ownerId edges a d c

/-- C9: the aggregate over a record set is order-independent: permuting the
body records leaves the returned `(added, deleted, net)` triple unchanged. -/
theorem aggregate_perm_invariant (body1 body2 : List Record)
    (h : body1.Perm body2) :
    aggregate body1 0 0 = aggregate body2 0 0 ∧
    (aggregate body1 0 0).1 - (aggregate body1 0 0).2 =
      (aggregate body2 0 0).1 - (aggregate body2 0 0).2 := by
  have ha : sum_added body1 = sum_added body2 := by
    simp only [sum_added]
    exact (h.map fun r => r.lines_added).sum_eq
  have hd : sum_deleted body1 = sum_deleted body2 := by
    simp only [sum_deleted]
    exact (h.map fun r => r.lines_deleted).sum_eq
  rw [aggregate_eq, aggregate_eq, ha, hd]
  exact ⟨rfl, rfl⟩

/-- Witness for C9 at a concrete two-record permutation. -/
theorem aggregate_perm_invariant_witness :
    ([Record.mk "a" 1 2 3 4, Record.mk "b" 5 6 7 8].Perm
      [Record.mk "b" 5 6 7 8, Record.mk "a" 1 2 3 4]) ∧
    (aggregate [Record.mk "a" 1 2 3 4, Record.mk "b" 5 6 7 8] 0 0 =
      aggregate [Record.mk "b" 5 6 7 8, Record.mk "a" 1 2 3 4] 0 0 ∧
    (aggregate [Record.mk "a" 1 2 3 4, Record.mk "b" 5 6 7 8] 0 0).1 -
      (aggregate [Record.mk "a" 1 2 3 4, Record.mk "b" 5 6 7 8] 0 0).2 =
    (aggregate [Record.mk "b" 5 6 7 8, Record.mk "a" 1 2 3 4] 0 0).1 -
      (aggregate [Record.mk "b" 5 6 7 8, Record.mk "a" 1 2 3 4] 0 0).2) :=
  ⟨List.Perm.swap (Record.mk "b" 5 6 7 8) (Record.mk "a" 1 2 3 4) [],
   aggregate_perm_invariant _ _
     (List.Perm.swap (Record.mk "b" 5 6 7 8) (Record.mk "a" 1 2 3 4) [])⟩

/-- Witness for C1 at a concrete run interrupted by a 403. -/
theorem emergency_flush_no_record_loss_witness :
    (cache_builder wHash wOwner [wEdge1] ["h"] [wRec1] false 0 0 =
      PassResult.fatal ["h"] [wRec1] 403 1) ∧
    (["h"] = (["h"] : List String) ∧
      ([wRec1] : List Record).length = ([wEdge1] : List RepoEdge).length ∧
      ∃ m, m ≤ ([wEdge1] : List RepoEdge).length ∧
        [wRec1] = ((([wEdge1].zip (pre_body wHash [wEdge1] [wRec1] false).1).take
              m).map fun p => step_record wHash wOwner p.1 p.2)
            ++ (([wEdge1].zip
                (pre_body wHash [wEdge1] [wRec1] false).1).drop m).map Prod.snd) :=
  ⟨by decide,
   emergency_flush_no_record_loss wHash wOwner [wEdge1] ["h"] [wRec1] false 0 0
     ["h"] [wRec1] 403 1 (by decide)⟩

/-- Witness for C2 at a concrete empty-body store. -/
theorem rebuild_on_count_mismatch_witness :
    (([] : List Record).length ≠ ([wEdge2] : List RepoEdge).length ∨
      false = true) ∧
    (cache_builder wHash wOwner [wEdge2] ["h"] [] false 0 0 =
      PassResult.ok ["h"] [wRec2] 0 0 0 false 0) ∧
    ((pre_body wHash [wEdge2] [] false).1 =
        [wEdge2].map (fun e => Record.mk (wHash e.nameWithOwner) 0 0 0 0) ∧
      ["h"] = (["h"] : List String) ∧
      ([wRec2] : List Record).length = ([wEdge2] : List RepoEdge).length) :=
  ⟨by decide, by decide,
   rebuild_on_count_mismatch wHash wOwner [wEdge2] ["h"] [] false 0 0 ["h"]
     [wRec2] 0 0 0 false 0 (by decide) (by decide)⟩

/-- Witness for C3 at a concrete in-sync record. -/
theorem cache_hit_no_recompute_witness :
    ([wRec3] : List Record).length = ([wEdge3] : List RepoEdge).length ∧
    ([wEdge3] : List RepoEdge)[0]? = some wEdge3 ∧
    ([wRec3] : List Record)[0]? = some wRec3 ∧
    wRec3.repo_hash = wHash wEdge3.nameWithOwner ∧
    wEdge3.defaultBranch = some wRec3.commit_count ∧
    (cache_step wHash wOwner wEdge3 wRec3 = (StepOutcome.unchanged, 0) ∧
     ∀ (hdr : List String) (b : List Record) (la ld net : Int) (cached : Bool)
       (f : Nat),
       cache_builder wHash wOwner [wEdge3] ["h"] [wRec3] false 0 0 =
         PassResult.ok hdr b la ld net cached f →
       b[0]? = some wRec3) :=
  ⟨by decide, by decide, by decide, by decide, by decide,
   cache_hit_no_recompute wHash wOwner [wEdge3] ["h"] [wRec3] 0 wEdge3 wRec3
     (by decide) (by decide) (by decide) (by decide) (by decide)⟩

/-- Witness for C6 at a concrete one-record pass. -/
theorem aggregate_returns_sums_witness :
    (cache_builder wHash wOwner [wEdge6] ["h"] [wRec6] false 0 0 =
      PassResult.ok ["h"] [wRec6] 3 4 (-1) true 0) ∧
    ((3 : Int) = sum_added [wRec6] ∧ (4 : Int) = sum_deleted [wRec6] ∧
      (-1 : Int) = 3 - 4 ∧
      (([wRec6] : List Record).length ≠ ([wEdge6] : List RepoEdge).length ∨
        false = true → true = false)) :=
  ⟨by decide,
   aggregate_returns_sums wHash wOwner [wEdge6] ["h"] [wRec6] false ["h"]
     [wRec6] 3 4 (-1) true 0 (by decide)⟩

/-- Witness for C7 at a concrete empty repository. -/
theorem empty_repo_recorded_zero_witness :
    wRec7.repo_hash = wHash wEdge7.nameWithOwner ∧
    wEdge7.defaultBranch = none ∧
    (cache_step wHash wOwner wEdge7 wRec7 =
        (StepOutcome.updated (Record.mk (wHash wEdge7.nameWithOwner) 0 0 0 0),
         0) ∧
      cache_builder wHash wOwner [wEdge7] ["h"] [wRec7] false 0 0 =
        PassResult.ok ["h"] [Record.mk (wHash wEdge7.nameWithOwner) 0 0 0 0]
          0 0 0 true 0) :=
  ⟨by decide, by decide,
   empty_repo_recorded_zero wHash wOwner wEdge7 wRec7 ["h"] (by decide)
     (by decide)⟩

/-- Witness for C8 at a concrete recomputation followed by a second run. -/
theorem reconcile_idempotent_witness :
    (cache_builder wHash wOwner [wEdge8] ["h"] [wRec8] false 0 0 =
      PassResult.ok ["h"] [wRec8b] 10 4 6 true 1) ∧
    (∃ la2 ld2 net2 cached2 f2,
      cache_builder wHash wOwner [wEdge8] ["h"] [wRec8b] false 0 0 =
        PassResult.ok ["h"] [wRec8b] la2 ld2 net2 cached2 f2) :=
  ⟨by decide,
   reconcile_idempotent wHash wOwner [wEdge8] ["h"] [wRec8] ["h"] [wRec8b]
     10 4 6 true 1 (by decide)⟩

/-- Witness for C10 at a concrete hash-mismatch record. -/
theorem hash_mismatch_record_kept_witness :
    ([wRec10] : List Record).length = ([wEdge10] : List RepoEdge).length ∧
    ([wEdge10] : List RepoEdge)[0]? = some wEdge10 ∧
    ([wRec10] : List Record)[0]? = some wRec10 ∧
    ¬ wRec10.repo_hash = wHash wEdge10.nameWithOwner ∧
    (cache_builder wHash wOwner [wEdge10] ["h"] [wRec10] false 0 0 =
      PassResult.ok ["h"] [wRec10] 7 2 5 true 0) ∧
    (([wRec10] : List Record)[0]? = some wRec10 ∧
      (7 : Int) = sum_added [wRec10] ∧ (2 : Int) = sum_deleted [wRec10] ∧
      (7 : Int) = sum_added (([wRec10] : List Record).take 0) +
        wRec10.lines_added + sum_added (([wRec10] : List Record).drop 1) ∧
      (2 : Int) = sum_deleted (([wRec10] : List Record).take 0) +
        wRec10.lines_deleted + sum_deleted (([wRec10] : List Record).drop 1)) :=
  ⟨by decide, by decide, by decide, by decide, by decide,
   hash_mismatch_record_kept wHash wOwner [wEdge10] ["h"] [wRec10] 0 wEdge10
     wRec10 ["h"] [wRec10] 7 2 5 true 0 (by decide) (by decide) (by decide)
     (by decide) (by decide)⟩

end GithubStats
